import Mathlib

/-!
Verification of the sliding-window rate limiter and backoff retry loop of
`src/main.py` (a small interactive chat client).  Timestamps are embedded as
rationals (`ℚ`, standing for the float seconds of `time.time()`); the mutable
`deque` of call timestamps is embedded as a `List ℚ` in insertion order
(head = oldest entry).  Python's `time.time()` reads are made explicit `now`
parameters.  The possible `IndexError` on `self.calls[0]` is made explicit by
returning an `Option`.
-/

/-- State of `InMemoryLimiter` (src/main.py lines 23-27): the configuration
`max_calls`/`period` and the call log `calls` (a deque of timestamps,
insertion order, head = oldest). -/
structure Limiter where
  max_calls : ℕ
  period : ℚ
  calls : List ℚ
deriving DecidableEq, Repr

/-- `InMemoryLimiter._prune` (lines 29-32): with `cutoff = now - period`,
pop entries from the left while the head is `< cutoff`.  The while loop on
the deque head is exactly `List.dropWhile`. -/
def Limiter.prune (l : Limiter) (now : ℚ) : Limiter :=
  { l with calls := l.calls.dropWhile (fun t => decide (t < now - l.period)) }

/-- `InMemoryLimiter.allow` (lines 34-40): prune, then if fewer than
`max_calls` entries remain return `(True, 0.0)`, else return
`(False, max(0.0, calls[0] + period - now))`.  The indexing `self.calls[0]`
raises `IndexError` on an empty deque; that branch is the `none` result.
Returns the post-prune limiter state since `_prune` mutates `self.calls`. -/
def Limiter.allow (l : Limiter) (now : ℚ) : Option (Limiter × Bool × ℚ) :=
  let l' := l.prune now
  if l'.calls.length < l'.max_calls then
    some (l', true, 0)
  else
    match l'.calls.head? with
    | none => none
    | some t0 => some (l', false, max 0 (t0 + l'.period - now))

/-- `InMemoryLimiter.record` (lines 42-45): prune, then append `now`
(the current `time.time()`) on the right of the deque. -/
def Limiter.record (l : Limiter) (now : ℚ) : Limiter :=
  let l' := l.prune now
  { l' with calls := l'.calls ++ [now] }

/-!
Embedding of the retry loop (src/main.py lines 67-101).  A raised
`ClientError` carries the attribute shapes the code sniffs:
`getattr(e, "status_code", None)`, `getattr(e, "status", None)` and the
nested `e.response.status_code` (absent attribute = `none`).  The remote
call `client.models.generate_content` is an oracle from the attempt number
to a result.  `time.time()` inside `record` is a function from the attempt
number to the timestamp of that attempt.
-/

/-- Attribute shapes of a raised `ClientError`, as sniffed in lines 80-81. -/
structure ClientErrorInfo where
  status_code : Option ℕ
  status : Option ℕ
  response_status_code : Option ℕ
deriving DecidableEq, Repr

/-- Python `a or b` on optional integers: `None` and `0` are falsy. -/
def pyOrNat (a b : Option ℕ) : Option ℕ :=
  match a with
  | none => b
  | some 0 => b
  | some n => some n

/-- Line 80-81: `status = getattr(e,"status_code",None) or getattr(e,"status",None)`
then `status == 429 or (hasattr(e,"response") and e.response.status_code == 429)`. -/
def is429 (e : ClientErrorInfo) : Bool :=
  pyOrNat e.status_code e.status == some 429 || e.response_status_code == some 429

/-- Result of one `generate_content` call: normal return, a raised
`ClientError`, a `KeyboardInterrupt`, or any other exception. -/
inductive CallResult where
  | ok (payload : String)
  | clientErr (e : ClientErrorInfo) (msg : String)
  | interrupt
  | otherExc (msg : String)
deriving DecidableEq, Repr

/-- Outcome of the inner retry loop: `success` = loop broke with a response,
`quotaExceeded` = line 84-86 (quota after max attempts, response None),
`otherFailure` = line 92-94 or 99-101 (response None), `interrupted` =
line 95-97 (KeyboardInterrupt re-raised). -/
inductive RetryOutcome where
  | success (payload : String)
  | quotaExceeded
  | otherFailure
  | interrupted
deriving DecidableEq, Repr

/-- Observable events of a run: a `limiter.record()` call at a timestamp, a
remote-call attempt numbered `k`, a backoff `time.sleep` of an integral
number of seconds (line 87-89), and the admission wait `time.sleep(wait)`
of line 65. -/
inductive Ev where
  | record (t : ℚ)
  | att (k : ℕ)
  | sleep (d : ℕ)
  | wait (w : ℚ)
deriving DecidableEq, Repr

/-- The retry loop of lines 70-101, entered with counter `attempt` (0 at
line 68).  Each iteration increments the counter, records with the limiter,
performs the remote call and classifies the result; on a 429-classified
`ClientError` it either terminates (counter at or above `maxAttempts`) or
sleeps `min(60, 2 ** attempt)` seconds and loops.  Returns the outcome, the
final limiter state and the event trace. -/
def retryLoop (oracle : ℕ → CallResult) (times : ℕ → ℚ) (maxAttempts : ℕ)
    (attempt : ℕ) (lim : Limiter) : RetryOutcome × Limiter × List Ev :=
  let a := attempt + 1
  let lim1 := lim.record (times a)
  match oracle a with
  | .ok p => (.success p, lim1, [.record (times a), .att a])
  | .interrupt => (.interrupted, lim1, [.record (times a), .att a])
  | .otherExc _ => (.otherFailure, lim1, [.record (times a), .att a])
  | .clientErr e _ =>
    if is429 e then
      if maxAttempts ≤ a then
        (.quotaExceeded, lim1, [.record (times a), .att a])
      else
        let d := min 60 (2 ^ a)
        let r := retryLoop oracle times maxAttempts a lim1
        (r.1, r.2.1, .record (times a) :: .att a :: .sleep d :: r.2.2)
    else
      (.otherFailure, lim1, [.record (times a), .att a])
termination_by maxAttempts - attempt
decreasing_by
  omega

/-- Count of remote-call attempts in a trace. -/
def countAtt (evs : List Ev) : ℕ :=
  (evs.filter (fun e => match e with | .att _ => true | _ => false)).length

/-- Count of `limiter.record()` calls in a trace. -/
def countRec (evs : List Ev) : ℕ :=
  (evs.filter (fun e => match e with | .record _ => true | _ => false)).length

/-- The backoff delays of a trace, in order. -/
def sleepsOf (evs : List Ev) : List ℕ :=
  evs.filterMap (fun e => match e with | .sleep d => some d | _ => none)


/-!
Embedding of one iteration of the outer chat loop (lines 54-109) and of the
startup configuration (lines 9-12 and 48-50).  `input("You: ").strip()` is
modelled by `String.trim` on the line read; `.lower()` by `String.toLower`.
-/

/-- How one read line is dispatched by lines 55-60. -/
inductive ChatAction where
  | reprompt
  | exitLoop
  | request (text : String)
deriving DecidableEq, Repr

/-- Python `str.strip()` with no argument: drop leading and trailing
whitespace (modelled over the ASCII whitespace characters of
`Char.isWhitespace`). -/
def pyStrip (s : String) : String :=
  String.mk (((s.toList.dropWhile Char.isWhitespace).reverse.dropWhile
    Char.isWhitespace).reverse)

/-- Python `str.lower()` over the characters of the string. -/
def pyLower (s : String) : String :=
  String.mk (s.toList.map Char.toLower)

/-- Lines 55-60: strip the line; empty means `continue` (re-prompt); `exit`
or `quit` (case-insensitive) breaks the loop; anything else is a request. -/
def parseInput (line : String) : ChatAction :=
  let s := pyStrip line
  if s = "" then .reprompt
  else if pyLower s = "exit" ∨ pyLower s = "quit" then .exitLoop
  else .request s

/-- What one iteration of the outer loop did with the line. -/
inductive StepKind where
  | reprompted
  | exited
  | handled (out : RetryOutcome)
deriving DecidableEq, Repr

/-- One iteration of the chat loop body (lines 54-109) on an already-read
line: dispatch it; for a request, call `limiter.allow()` at time `tNow`
(line 62), sleep the returned wait when not allowed (lines 63-65), then run
the retry loop with `max_attempts = 5` (lines 67-101).  `none` models the
uncaught `IndexError` that `allow` can raise.  Returns the new limiter
state, the event trace and what happened. -/
def chatStep (oracle : ℕ → CallResult) (times : ℕ → ℚ) (tNow : ℚ)
    (line : String) (lim : Limiter) : Option (Limiter × List Ev × StepKind) :=
  match parseInput line with
  | .reprompt => some (lim, [], .reprompted)
  | .exitLoop => some (lim, [], .exited)
  | .request _ =>
    match lim.allow tNow with
    | none => none
    | some (l1, allowed, w) =>
      let waitEvs := if allowed then [] else [Ev.wait w]
      let r := retryLoop oracle times 5 0 l1
      some (r.2.1, waitEvs ++ r.2.2, .handled r.1)

/-- Python `a or b` on optional strings: `None` and the empty string are
falsy. -/
def pyOrStr (a b : Option String) : Option String :=
  match a with
  | none => b
  | some s => if s.isEmpty then b else some s

/-- Lines 10-12: `API_KEY = os.getenv("GEMINI_API_KEY") or
os.getenv("GOOGLE_API_KEY")`; `if not API_KEY: raise SystemExit(...)`.
Returns the accepted key, or `none` when the process exits. -/
def apiKeyOf (env : String → Option String) : Option String :=
  match pyOrStr (env "GEMINI_API_KEY") (env "GOOGLE_API_KEY") with
  | none => none
  | some s => if s.isEmpty then none else some s

/-- Lines 48-49: `int(os.getenv(name, dflt))`.  An unset variable yields the
integer default; a set one is parsed by `int()` (a parse failure raises
`ValueError`, modelled as `none`). -/
def readRateVar (env : String → Option String) (name : String) (dflt : ℤ) :
    Option ℤ :=
  match env name with
  | none => some dflt
  | some s => s.toInt?

/-- Result of the module-level startup (lines 9-12 and 47-50). -/
structure Config where
  apiKey : String
  rateMax : ℤ
  rateWindow : ℤ
deriving DecidableEq, Repr

/-- Startup: require a credential under `GEMINI_API_KEY` or (fallback)
`GOOGLE_API_KEY`, exiting with the line-12 diagnostic otherwise (the
`SystemExit` carries a message, so CPython exits with status 1); then read
`RATE_LIMIT_MAX` (default 20) and `RATE_LIMIT_WINDOW` (default 60).  All of
this runs before the interactive loop is entered. -/
def startup (env : String → Option String) : Except String Config :=
  match apiKeyOf env with
  | none => .error "GEMINI_API_KEY not set in .env or environment"
  | some key =>
    match readRateVar env "RATE_LIMIT_MAX" 20,
          readRateVar env "RATE_LIMIT_WINDOW" 60 with
    | some m, some w => .ok ⟨key, m, w⟩
    | _, _ => .error "ValueError"

/-- Sequences of limiter operations in which every `record(t)` is admitted:
it happens at a time `t` where the pruned log still has room, i.e. where
`allow(t)` would return `permitted = true`. -/
inductive AdmittedOps : Limiter → Limiter → Prop where
  | nil (l : Limiter) : AdmittedOps l l
  | allowOp (l0 l l1 : Limiter) (t : ℚ) (b : Bool) (w : ℚ) :
      AdmittedOps l0 l → l.allow t = some (l1, b, w) → AdmittedOps l0 l1
  | recordOp (l0 l : Limiter) (t : ℚ) :
      AdmittedOps l0 l → (l.prune t).calls.length < l.max_calls →
      AdmittedOps l0 (l.record t)

/-!
Closed-form trace of an all-429 run.  `qtrace times n a` is the event trace
of the retry loop entered with counter `a` when every remaining call
reports a 429 `ClientError` and exactly `n + 1` more attempts happen: each
iteration records then attempts, and every iteration but the last sleeps
`min(60, 2 ** attempt)` seconds.
-/

def qtrace (times : ℕ → ℚ) : ℕ → ℕ → List Ev
  | 0, a => [Ev.record (times (a + 1)), Ev.att (a + 1)]
  | n + 1, a =>
      Ev.record (times (a + 1)) :: Ev.att (a + 1) ::
        Ev.sleep (min 60 (2 ^ (a + 1))) :: qtrace times n (a + 1)

section PruneLemmas

theorem Limiter.prune_max_calls (l : Limiter) (now : ℚ) :
    (l.prune now).max_calls = l.max_calls := rfl

theorem Limiter.prune_period (l : Limiter) (now : ℚ) :
    (l.prune now).period = l.period := rfl

theorem Limiter.record_max_calls (l : Limiter) (now : ℚ) :
    (l.record now).max_calls = l.max_calls := rfl

/-- `dropWhile` never lengthens a list. -/
theorem length_dropWhile_le' {α : Type} (p : α → Bool) (xs : List α) :
    (xs.dropWhile p).length ≤ xs.length := by
  induction xs with
  | nil => simp [List.dropWhile]
  | cons h t ih =>
      by_cases hp : p h
      · rw [List.dropWhile_cons_of_pos hp]
        exact le_trans ih (Nat.le_succ _)
      · rw [List.dropWhile_cons_of_neg hp]

/-- `dropWhile` is idempotent: the head of the result (if any) fails the
predicate, so a second pass removes nothing. -/
theorem dropWhile_dropWhile {α : Type} (p : α → Bool) (xs : List α) :
    (xs.dropWhile p).dropWhile p = xs.dropWhile p := by
  induction xs with
  | nil => simp [List.dropWhile]
  | cons h t ih =>
      by_cases hp : p h
      · rw [List.dropWhile_cons_of_pos hp]; exact ih
      · rw [List.dropWhile_cons_of_neg hp, List.dropWhile_cons_of_neg hp]

theorem Limiter.prune_calls_length_le (l : Limiter) (now : ℚ) :
    (l.prune now).calls.length ≤ l.calls.length :=
  length_dropWhile_le' _ _

end PruneLemmas

/-!
Helper lemmas about `allow`.
-/

/-- Every successful `allow` returns the pruned limiter state. -/
theorem allow_some_fst (l : Limiter) (now : ℚ) (r : Limiter × Bool × ℚ)
    (h : l.allow now = some r) : r.1 = l.prune now := by
  simp only [Limiter.allow] at h
  split at h
  · cases h; rfl
  · split at h
    · cases h
    · cases h; rfl

/-- Inversion of the not-permitted branch of `allow`. -/
theorem allow_false_elim (l : Limiter) (now : ℚ) (lim1 : Limiter) (w : ℚ)
    (h : l.allow now = some (lim1, false, w)) :
    lim1 = l.prune now ∧ l.max_calls ≤ (l.prune now).calls.length ∧
    ∃ t0 rest, (l.prune now).calls = t0 :: rest ∧
      w = max 0 (t0 + l.period - now) := by
  simp only [Limiter.allow] at h
  split at h
  · cases h
  · rename_i hlen
    rw [Limiter.prune_max_calls] at hlen
    have hne : (l.prune now).calls ≠ [] := by
      intro hnil
      rw [hnil] at h
      simp [List.head?] at h
    obtain ⟨t0, rest, hc⟩ := List.exists_cons_of_ne_nil hne
    rw [hc] at h hlen
    simp only [List.head?] at h
    cases h
    refine ⟨rfl, ?_, t0, rest, hc, rfl⟩
    rw [hc]
    simp only [List.length_cons] at hlen ⊢
    omega

/-- Full characterisation of `allow` under a positive `max_calls`: shared
between the admission-decision and totality results below. -/
theorem allow_spec_main (l : Limiter) (now : ℚ) (h : 1 ≤ l.max_calls) :
    ∃ lp b w, l.allow now = some (lp, b, w) ∧
      lp = l.prune now ∧
      (b = false ↔ l.max_calls ≤ (l.prune now).calls.length) ∧
      (b = false → ∃ t0, (l.prune now).calls.head? = some t0 ∧
          w = max 0 (t0 + l.period - now)) ∧
      0 ≤ w := by
  by_cases hlen : (l.prune now).calls.length < (l.prune now).max_calls
  · refine ⟨l.prune now, true, 0, ?_, rfl, ?_, ?_, le_refl 0⟩
    · simp only [Limiter.allow]
      rw [if_pos hlen]
    · rw [Limiter.prune_max_calls] at hlen
      constructor
      · intro hb; cases hb
      · intro hle; omega
    · intro hb; cases hb
  · rw [Limiter.prune_max_calls] at hlen
    push_neg at hlen
    have h1 : 1 ≤ (l.prune now).calls.length := le_trans h hlen
    have hne : (l.prune now).calls ≠ [] := by
      intro hnil
      rw [hnil] at h1
      simp at h1
    obtain ⟨t0, rest, hc⟩ := List.exists_cons_of_ne_nil hne
    refine ⟨l.prune now, false, max 0 (t0 + l.period - now), ?_, rfl, ?_, ?_, le_max_left _ _⟩
    · simp only [Limiter.allow]
      rw [if_neg (by rw [Limiter.prune_max_calls]; omega), hc]
      rfl
    · simp [hlen]
    · intro _
      exact ⟨t0, by rw [hc]; rfl, rfl⟩

/-- Claim C1: for every limiter with a positive `max_calls` (the
configuration invariant of the spec, which covers in particular every state
reachable by `record` calls at increasing timestamps), `allow(now)` returns
a result; it is not-permitted exactly when the log pruned at `now` still
holds at least `max_calls` entries, in which case the wait is
`max(0, oldest + period - now)` where `oldest` is the head of the
chronologically ordered log; and the wait is never negative. -/
theorem c1_allow_spec (l : Limiter) (now : ℚ) (h : 1 ≤ l.max_calls) :
    ∃ lp b w, l.allow now = some (lp, b, w) ∧
      lp = l.prune now ∧
      (b = false ↔ l.max_calls ≤ (l.prune now).calls.length) ∧
      (b = false → ∃ t0, (l.prune now).calls.head? = some t0 ∧
          w = max 0 (t0 + l.period - now)) ∧
      0 ≤ w :=
  allow_spec_main l now h

/-- Claim C1, witness at a fresh default-configured limiter. -/
theorem c1_allow_spec_witness :
    ∃ lp b w, (Limiter.mk 20 60 []).allow 0 = some (lp, b, w) ∧ 0 ≤ w := by
  obtain ⟨lp, b, w, h1, _, _, _, hw⟩ :=
    c1_allow_spec (Limiter.mk 20 60 []) 0 (by decide)
  exact ⟨lp, b, w, h1, hw⟩

/-- Claim C7: pruning is idempotent — pruning twice at the same timestamp
equals pruning once. -/
theorem c7_prune_idempotent (l : Limiter) (t : ℚ) :
    (l.prune t).prune t = l.prune t := by
  simp only [Limiter.prune]
  rw [dropWhile_dropWhile]

/-- Claim C10: with `max_calls` at least 1, `allow` never hits the
out-of-bounds access on `calls[0]`: it always returns a result. -/
theorem c10_allow_total (l : Limiter) (now : ℚ) (h : 1 ≤ l.max_calls) :
    ∃ r, l.allow now = some r := by
  obtain ⟨lp, b, w, h1, _⟩ := allow_spec_main l now h
  exact ⟨(lp, b, w), h1⟩

/-- Claim C10, witness: a full one-entry log with `max_calls = 1`. -/
theorem c10_allow_total_witness :
    ∃ r, (Limiter.mk 1 60 [0]).allow 30 = some r :=
  c10_allow_total (Limiter.mk 1 60 [0]) 30 (by decide)

/-!
Claim C3.  The code keeps an entry with timestamp `t` in the window up to and
including `now = t + period` (`_prune` pops only entries strictly below the
cutoff), so a not-permitted `allow` that reported wait `w` still reports
not-permitted when re-evaluated exactly at `now + w`; permission returns only
strictly after `now + w`.
-/

/-- Claim C3, counterexample: `max_calls = 1`, `period = 60`, one entry at
`t = 0`.  `allow(10)` returns `(false, 50)`, but re-evaluating at
`10 + 50 = 60` still returns `permitted = false` (with wait `0`), because
the entry at `0` is pruned only strictly after `t = 60`. -/
theorem c3_counterexample :
    (Limiter.mk 1 60 [0]).allow 10 = some (Limiter.mk 1 60 [0], false, 50) ∧
    (Limiter.mk 1 60 [0]).allow (10 + 50) =
      some (Limiter.mk 1 60 [0], false, 0) := by
  constructor <;>
    · simp only [Limiter.allow, Limiter.prune, List.dropWhile]
      norm_num

/-- Claim C3 as amended: for a limiter whose log holds at most `max_calls`
entries (as in every state reachable through admitted records), if
`allow(now)` returns `(false, w)` then `w ≥ 0` and
`allow` re-evaluated at any time strictly later than `now + w`, with no
record in between, returns `permitted = true`. -/
theorem c3_allow_wait_amended (l : Limiter) (now T w : ℚ) (lim1 : Limiter)
    (hlen : l.calls.length ≤ l.max_calls)
    (hallow : l.allow now = some (lim1, false, w))
    (hT : now + w < T) :
    0 ≤ w ∧ lim1.allow T = some (lim1.prune T, true, 0) := by
  obtain ⟨hlim1, hge, t0, rest, hc, hw⟩ := allow_false_elim l now lim1 w hallow
  have hw0 : 0 ≤ w := by rw [hw]; exact le_max_left _ _
  refine ⟨hw0, ?_⟩
  -- the pruned log at `now` has exactly `max_calls` entries
  have hle : (l.prune now).calls.length ≤ l.calls.length :=
    Limiter.prune_calls_length_le l now
  -- the head `t0` leaves the window strictly after `now + w`
  have ht0 : t0 < T - lim1.period := by
    have hp : lim1.period = l.period := by rw [hlim1]; rfl
    have h1 : t0 + l.period - now ≤ w := by
      rw [hw]; exact le_max_right _ _
    rw [hp]
    linarith
  -- so pruning at `T` drops it, leaving fewer than `max_calls` entries
  have hcalls1 : lim1.calls = t0 :: rest := by rw [hlim1]; exact hc
  have hdrop : (lim1.prune T).calls =
      rest.dropWhile (fun t => decide (t < T - lim1.period)) := by
    simp only [Limiter.prune, hcalls1]
    rw [List.dropWhile_cons_of_pos (by simpa using ht0)]
  have hmc1 : lim1.max_calls = l.max_calls := by rw [hlim1]; rfl
  have hshort : (lim1.prune T).calls.length < lim1.max_calls := by
    rw [hdrop, hmc1]
    have hd : (rest.dropWhile (fun t => decide (t < T - lim1.period))).length ≤
        rest.length := length_dropWhile_le' _ _
    have hrest : rest.length + 1 ≤ l.max_calls := by
      have := hle
      rw [hc] at hge hle
      simp only [List.length_cons] at hge hle
      omega
    omega
  simp only [Limiter.allow, Limiter.prune_max_calls]
  rw [if_pos hshort]

/-- Claim C3 (amended), witness: the counterexample state re-evaluated
strictly after the boundary, at `t = 61`. -/
theorem c3_allow_wait_amended_witness :
    0 ≤ (50 : ℚ) ∧ (Limiter.mk 1 60 [0]).allow 61 =
      some ((Limiter.mk 1 60 [0]).prune 61, true, 0) := by
  have h := c3_allow_wait_amended (Limiter.mk 1 60 [0]) 10 61 50
    (Limiter.mk 1 60 [0]) (by decide)
    (by simp only [Limiter.allow, Limiter.prune, List.dropWhile]; norm_num)
    (by norm_num)
  exact h

/-!
Claim C4.  `record` appends unconditionally after pruning, and pruning only
removes entries older than the window — it does not trim the log down to
`max_calls`.  So a sequence of `record` calls alone (exactly what the retry
loop performs, one per attempt, without consulting `allow`) grows the log
past `max_calls`.  The bound does hold when every `record` happens at a
time its own `allow` check would permit.
-/

/-- Claim C4, counterexample: `max_calls = 1`, `period = 60`; recording at
`t = 0` and then `t = 1` (nondecreasing times) leaves 2 > 1 entries in the
log. -/
theorem c4_counterexample :
    1 < (((Limiter.mk 1 60 []).record 0).record 1).calls.length := by
  simp [Limiter.record, Limiter.prune, List.dropWhile]

/-- Claim C4 as amended: starting from a log within the bound, the log
never exceeds `max_calls` entries across any sequence of `allow` calls and
admitted `record` calls.  (Unconditional `record` calls — as issued by the
retry loop — break the bound, per the counterexample.) -/
theorem c4_bounded_log_amended (l0 l : Limiter)
    (h0 : l0.calls.length ≤ l0.max_calls) (hreach : AdmittedOps l0 l) :
    l.calls.length ≤ l.max_calls := by
  induction hreach with
  | nil => exact h0
  | allowOp l l1 t b w hr hall ih =>
      have h1 : l1 = l.prune t := allow_some_fst l t (l1, b, w) hall
      rw [h1, Limiter.prune_max_calls]
      exact le_trans (Limiter.prune_calls_length_le l t) ih
  | recordOp l t hr hguard ih =>
      have hcalls : (l.record t).calls = (l.prune t).calls ++ [t] := rfl
      rw [Limiter.record_max_calls, hcalls, List.length_append,
        List.length_singleton]
      omega

/-- Claim C4 (amended), witness: one admitted record on an empty
default-size log stays within the bound. -/
theorem c4_bounded_log_amended_witness :
    ((Limiter.mk 2 60 []).record 0).calls.length ≤
      ((Limiter.mk 2 60 []).record 0).max_calls :=
  c4_bounded_log_amended (Limiter.mk 2 60 []) ((Limiter.mk 2 60 []).record 0)
    (by decide)
    (AdmittedOps.recordOp (Limiter.mk 2 60 []) (Limiter.mk 2 60 []) 0
      (AdmittedOps.nil (Limiter.mk 2 60 []))
      (by simp [Limiter.prune, List.dropWhile]))

/-- An always-quota oracle drives the retry loop entered with counter `a`
and bound `a + n + 1` to the `quotaExceeded` outcome, with trace
`qtrace times n a`. -/
theorem retry_quota_trace (oracle : ℕ → CallResult) (times : ℕ → ℚ)
    (hq : ∀ k, ∃ e m, oracle k = CallResult.clientErr e m ∧ is429 e = true) :
    ∀ n a lim, ∃ lim2,
      retryLoop oracle times (a + n + 1) a lim =
        (.quotaExceeded, lim2, qtrace times n a) := by
  intro n
  induction n with
  | zero =>
      intro a lim
      obtain ⟨e, m, he, h429⟩ := hq (a + 1)
      refine ⟨lim.record (times (a + 1)), ?_⟩
      rw [retryLoop.eq_def]
      simp [he, h429, qtrace]
  | succ n ih =>
      intro a lim
      obtain ⟨e, m, he, h429⟩ := hq (a + 1)
      obtain ⟨lim2, hrec⟩ := ih (a + 1) (lim.record (times (a + 1)))
      refine ⟨lim2, ?_⟩
      rw [retryLoop.eq_def]
      have harith : a + 1 + n + 1 = a + (n + 1) + 1 := by omega
      rw [harith] at hrec
      simp [he, h429, qtrace, hrec, Nat.not_le.mpr (show a + 1 < a + (n + 1) + 1 by omega)]

theorem countAtt_qtrace (times : ℕ → ℚ) :
    ∀ n a, countAtt (qtrace times n a) = n + 1 := by
  intro n
  induction n with
  | zero => intro a; simp [qtrace, countAtt]
  | succ n ih =>
      intro a
      simp [qtrace, countAtt, List.filter] at ih ⊢
      exact ih (a + 1)

theorem countRec_qtrace (times : ℕ → ℚ) :
    ∀ n a, countRec (qtrace times n a) = n + 1 := by
  intro n
  induction n with
  | zero => intro a; simp [qtrace, countRec]
  | succ n ih =>
      intro a
      simp [qtrace, countRec, List.filter] at ih ⊢
      exact ih (a + 1)

/-- Every attempt event of an all-429 trace carries a number between
`a + 1` and `a + n + 1` and sits immediately after its own record event. -/
theorem qtrace_att_adjacent (times : ℕ → ℚ) :
    ∀ n a i k, (qtrace times n a).get? i = some (Ev.att k) →
      a + 1 ≤ k ∧ k ≤ a + n + 1 ∧
      ∃ j, i = j + 1 ∧ (qtrace times n a).get? j = some (Ev.record (times k)) := by
  intro n
  induction n with
  | zero =>
      intro a i k h
      match i with
      | 0 => simp [qtrace] at h
      | 1 =>
          simp [qtrace] at h
          subst h
          exact ⟨le_refl _, le_refl _, 0, rfl, rfl⟩
      | (j + 2) => simp [qtrace] at h
  | succ n ih =>
      intro a i k h
      match i with
      | 0 => simp [qtrace] at h
      | 1 =>
          simp [qtrace] at h
          subst h
          exact ⟨le_refl _, by omega, 0, rfl, rfl⟩
      | 2 => simp [qtrace] at h
      | (j + 3) =>
          have h3 : (qtrace times n (a + 1)).get? j = some (Ev.att k) := by
            simpa [qtrace] using h
          obtain ⟨hk1, hk2, j0, hj0, hrec⟩ := ih (a + 1) j k h3
          refine ⟨by omega, by omega, j0 + 3, by omega, ?_⟩
          simpa [qtrace] using hrec

/-- Claim C2: for any `max_attempts = N` at least 1, an oracle that raises
a 429-classified `ClientError` on every attempt drives the retry loop to
exactly `N` attempts, each immediately preceded by exactly one
`limiter.record()` call, terminating with the `quotaExceeded` outcome (no
further retries after the `N`-th attempt). -/
theorem c2_always_quota (N : ℕ) (hN : 1 ≤ N) (oracle : ℕ → CallResult)
    (times : ℕ → ℚ) (lim : Limiter)
    (hq : ∀ k, ∃ e m, oracle k = CallResult.clientErr e m ∧ is429 e = true) :
    (retryLoop oracle times N 0 lim).1 = RetryOutcome.quotaExceeded ∧
    countAtt (retryLoop oracle times N 0 lim).2.2 = N ∧
    countRec (retryLoop oracle times N 0 lim).2.2 = N ∧
    ∀ i k, (retryLoop oracle times N 0 lim).2.2.get? i = some (Ev.att k) →
      1 ≤ k ∧ k ≤ N ∧ ∃ j, i = j + 1 ∧
        (retryLoop oracle times N 0 lim).2.2.get? j =
          some (Ev.record (times k)) := by
  obtain ⟨lim2, hrun⟩ := retry_quota_trace oracle times hq (N - 1) 0 lim
  rw [show 0 + (N - 1) + 1 = N from by omega] at hrun
  rw [hrun]
  refine ⟨rfl, ?_, ?_, ?_⟩
  · show countAtt (qtrace times (N - 1) 0) = N
    rw [countAtt_qtrace]
    omega
  · show countRec (qtrace times (N - 1) 0) = N
    rw [countRec_qtrace]
    omega
  · intro i k h
    obtain ⟨h1, h2, j, hj, hr⟩ := qtrace_att_adjacent times (N - 1) 0 i k h
    exact ⟨by omega, by omega, j, hj, hr⟩

/-- Claim C2, witness: three attempts with an always-429 oracle. -/
theorem c2_always_quota_witness :
    (retryLoop (fun _ => CallResult.clientErr ⟨some 429, none, none⟩ "q")
        (fun _ => 0) 3 0 (Limiter.mk 20 60 [])).1 =
      RetryOutcome.quotaExceeded ∧
    countAtt (retryLoop (fun _ => CallResult.clientErr ⟨some 429, none, none⟩ "q")
        (fun _ => 0) 3 0 (Limiter.mk 20 60 [])).2.2 = 3 := by
  have h := c2_always_quota 3 (by decide)
    (fun _ => CallResult.clientErr ⟨some 429, none, none⟩ "q") (fun _ => 0)
    (Limiter.mk 20 60 [])
    (fun k => ⟨⟨some 429, none, none⟩, "q", rfl, by decide⟩)
  exact ⟨h.1, h.2.1⟩

theorem sleepsOf_qtrace (times : ℕ → ℚ) :
    ∀ n a, sleepsOf (qtrace times n a) =
      (List.range n).map (fun i => min 60 (2 ^ (a + i + 1))) := by
  intro n
  induction n with
  | zero => intro a; simp [qtrace, sleepsOf]
  | succ n ih =>
      intro a
      have hstep : sleepsOf (qtrace times (n + 1) a) =
          min 60 (2 ^ (a + 1)) :: sleepsOf (qtrace times n (a + 1)) := by
        simp [qtrace, sleepsOf]
      rw [hstep, ih (a + 1), List.range_succ_eq_map, List.map_cons, List.map_map]
      congr 1
      have hfun : (fun i => min 60 (2 ^ (a + 1 + i + 1))) =
          ((fun i => min 60 (2 ^ (a + i + 1))) ∘ Nat.succ) := by
        funext i
        simp only [Function.comp_apply]
        congr 2
        omega
      rw [hfun]

/-- Claim C5: when every attempt reports quota-exceeded, the delay slept
after the k-th attempt (1 ≤ k < max_attempts) is `min(60, 2 ** k)` — the
code's cap of 60 and base of 2 — so the successive delays are
2, 4, 8, 16, 32, 60, ... -/
theorem c5_backoff_delays (N : ℕ) (hN : 1 ≤ N) (oracle : ℕ → CallResult)
    (times : ℕ → ℚ) (lim : Limiter)
    (hq : ∀ k, ∃ e m, oracle k = CallResult.clientErr e m ∧ is429 e = true) :
    sleepsOf (retryLoop oracle times N 0 lim).2.2 =
      (List.range (N - 1)).map (fun i => min 60 (2 ^ (i + 1))) ∧
    (∀ k, 1 ≤ k → k < N →
      (sleepsOf (retryLoop oracle times N 0 lim).2.2).get? (k - 1) =
        some (min 60 (2 ^ k))) ∧
    (List.range 6).map (fun i => min 60 (2 ^ (i + 1))) =
      [2, 4, 8, 16, 32, 60] := by
  obtain ⟨lim2, hrun⟩ := retry_quota_trace oracle times hq (N - 1) 0 lim
  rw [show 0 + (N - 1) + 1 = N from by omega] at hrun
  have hsleeps : sleepsOf (retryLoop oracle times N 0 lim).2.2 =
      (List.range (N - 1)).map (fun i => min 60 (2 ^ (i + 1))) := by
    rw [hrun]
    show sleepsOf (qtrace times (N - 1) 0) = _
    rw [sleepsOf_qtrace]
    congr 1
    funext i
    congr 2
    omega
  refine ⟨hsleeps, ?_, by rfl⟩
  intro k hk1 hk2
  rw [hsleeps, List.get?_map, List.get?_range (by omega : k - 1 < N - 1)]
  simp only [Option.map_some']
  rw [show k - 1 + 1 = k from by omega]

/-- Claim C5, witness: seven attempts against an always-429 oracle sleep
2, 4, 8, 16, 32 and then the capped 60 seconds. -/
theorem c5_backoff_delays_witness :
    sleepsOf (retryLoop (fun _ => CallResult.clientErr ⟨some 429, none, none⟩ "q")
        (fun _ => 0) 7 0 (Limiter.mk 20 60 [])).2.2 =
      [2, 4, 8, 16, 32, 60] := by
  have h := c5_backoff_delays 7 (by decide)
    (fun _ => CallResult.clientErr ⟨some 429, none, none⟩ "q") (fun _ => 0)
    (Limiter.mk 20 60 [])
    (fun k => ⟨⟨some 429, none, none⟩, "q", rfl, by decide⟩)
  rw [h.1]
  rfl

/-- Attempt numbers in a run are at least `attempt + 1`, and any attempt
beyond the first of the run was reached only because the previous attempt
raised a 429-classified `ClientError`. -/
theorem retry_att_facts (oracle : ℕ → CallResult) (times : ℕ → ℚ) :
    ∀ (fuel N a : ℕ), N - a ≤ fuel → ∀ (lim : Limiter) (j : ℕ),
      Ev.att j ∈ (retryLoop oracle times N a lim).2.2 →
      a + 1 ≤ j ∧ (a + 2 ≤ j →
        ∃ e m, oracle (j - 1) = CallResult.clientErr e m ∧ is429 e = true) := by
  intro fuel
  induction fuel with
  | zero =>
      intro N a hfuel lim j hmem
      rw [retryLoop.eq_def] at hmem
      cases horacle : oracle (a + 1) with
      | ok p =>
          simp [horacle] at hmem
          exact ⟨by omega, fun h2 => absurd h2 (by omega)⟩
      | interrupt =>
          simp [horacle] at hmem
          exact ⟨by omega, fun h2 => absurd h2 (by omega)⟩
      | otherExc msg =>
          simp [horacle] at hmem
          exact ⟨by omega, fun h2 => absurd h2 (by omega)⟩
      | clientErr e m =>
          by_cases hle : N ≤ a + 1
          · cases h429 : is429 e
            · simp [horacle, h429] at hmem
              exact ⟨by omega, fun h2 => absurd h2 (by omega)⟩
            · simp [horacle, h429, hle] at hmem
              exact ⟨by omega, fun h2 => absurd h2 (by omega)⟩
          · omega
  | succ fuel ih =>
      intro N a hfuel lim j hmem
      rw [retryLoop.eq_def] at hmem
      cases horacle : oracle (a + 1) with
      | ok p =>
          simp [horacle] at hmem
          exact ⟨by omega, fun h2 => absurd h2 (by omega)⟩
      | interrupt =>
          simp [horacle] at hmem
          exact ⟨by omega, fun h2 => absurd h2 (by omega)⟩
      | otherExc msg =>
          simp [horacle] at hmem
          exact ⟨by omega, fun h2 => absurd h2 (by omega)⟩
      | clientErr e m =>
          cases h429 : is429 e with
          | false =>
              simp [horacle, h429] at hmem
              exact ⟨by omega, fun h2 => absurd h2 (by omega)⟩
          | true =>
              by_cases hle : N ≤ a + 1
              · simp [horacle, h429, hle] at hmem
                exact ⟨by omega, fun h2 => absurd h2 (by omega)⟩
              · simp [horacle, h429, hle] at hmem
                rcases hmem with hj | hmem2
                · exact ⟨by omega, fun h2 => absurd h2 (by omega)⟩
                · obtain ⟨hj1, hj2⟩ := ih N (a + 1) (by omega)
                    (lim.record (times (a + 1))) j hmem2
                  refine ⟨by omega, fun h2 => ?_⟩
                  by_cases hcase : a + 3 ≤ j
                  · exact hj2 (by omega)
                  · have hja : j = a + 2 := by omega
                    rw [hja]
                    exact ⟨e, m, by
                      rw [show a + 2 - 1 = a + 1 from by omega]
                      exact horacle, h429⟩

/-- Claim C6: a non-429 `ClientError` on the first attempt ends the loop at
once — exactly one attempt, exactly one `record` call, outcome
`otherFailure`, no backoff sleep; and, in any run, an attempt is ever
followed by another only when it raised a 429-classified error. -/
theorem c6_non429_no_retry (oracle : ℕ → CallResult) (times : ℕ → ℚ)
    (N : ℕ) (lim : Limiter) (e : ClientErrorInfo) (m : String)
    (h1 : oracle 1 = CallResult.clientErr e m) (h429 : is429 e = false) :
    retryLoop oracle times N 0 lim =
      (.otherFailure, lim.record (times 1),
        [Ev.record (times 1), Ev.att 1]) ∧
    countAtt (retryLoop oracle times N 0 lim).2.2 = 1 ∧
    countRec (retryLoop oracle times N 0 lim).2.2 = 1 ∧
    sleepsOf (retryLoop oracle times N 0 lim).2.2 = [] ∧
    (∀ (oracle2 : ℕ → CallResult) (N2 a : ℕ) (lim2 : Limiter) (j : ℕ),
      Ev.att j ∈ (retryLoop oracle2 times N2 a lim2).2.2 → a + 2 ≤ j →
        ∃ e2 m2, oracle2 (j - 1) = CallResult.clientErr e2 m2 ∧
          is429 e2 = true) := by
  have hrun : retryLoop oracle times N 0 lim =
      (.otherFailure, lim.record (times 1),
        [Ev.record (times 1), Ev.att 1]) := by
    rw [retryLoop.eq_def]
    simp [h1, h429]
  refine ⟨hrun, ?_, ?_, ?_, ?_⟩
  · rw [hrun]; rfl
  · rw [hrun]; rfl
  · rw [hrun]; rfl
  · intro oracle2 N2 a lim2 j hmem h2
    exact (retry_att_facts oracle2 times (N2 - a) N2 a (by omega) lim2 j
      hmem).2 h2

/-- Claim C6, witness: a 500-status `ClientError` on attempt 1 with
`max_attempts = 5`. -/
theorem c6_non429_no_retry_witness :
    retryLoop (fun _ => CallResult.clientErr ⟨some 500, none, none⟩ "err")
        (fun _ => 0) 5 0 (Limiter.mk 20 60 []) =
      (.otherFailure, (Limiter.mk 20 60 []).record 0,
        [Ev.record 0, Ev.att 1]) := by
  have h := c6_non429_no_retry
    (fun _ => CallResult.clientErr ⟨some 500, none, none⟩ "err")
    (fun _ => 0) 5 (Limiter.mk 20 60 []) ⟨some 500, none, none⟩ "err"
    rfl (by decide)
  exact h.1

/-- Claim C8: a line that strips to nothing (empty or all whitespace) makes
the chat loop re-prompt with no `record` call, no remote-call attempt, and
the limiter state untouched. -/
theorem c8_blank_line_noop (oracle : ℕ → CallResult) (times : ℕ → ℚ)
    (tNow : ℚ) (line : String) (lim : Limiter) (h : pyStrip line = "") :
    chatStep oracle times tNow line lim = some (lim, [], .reprompted) := by
  simp [chatStep, parseInput, h]

/-- Claim C8, witness: a whitespace-only line. -/
theorem c8_blank_line_noop_witness :
    chatStep (fun _ => CallResult.ok "r") (fun _ => 0) 0 "  " (Limiter.mk 20 60 [5]) =
      some (Limiter.mk 20 60 [5], [], .reprompted) :=
  c8_blank_line_noop (fun _ => CallResult.ok "r") (fun _ => 0) 0 "  "
    (Limiter.mk 20 60 [5]) (by decide)

/-- Claim C9: the credential is accepted under `GEMINI_API_KEY` or, as a
fallback, `GOOGLE_API_KEY`; when neither is set the startup stops with the
diagnostic `SystemExit` (nonzero exit) before the interactive loop; and
with the rate variables unset the limiter configuration defaults to 20
calls per 60-second window. -/
theorem c9_startup_config (env : String → Option String)
    (hm : env "RATE_LIMIT_MAX" = none)
    (hw : env "RATE_LIMIT_WINDOW" = none) :
    ((env "GEMINI_API_KEY" = none ∧ env "GOOGLE_API_KEY" = none) →
      startup env = .error "GEMINI_API_KEY not set in .env or environment") ∧
    (∀ k, env "GEMINI_API_KEY" = some k → k.isEmpty = false →
      startup env = .ok ⟨k, 20, 60⟩) ∧
    (∀ k, env "GEMINI_API_KEY" = none → env "GOOGLE_API_KEY" = some k →
      k.isEmpty = false → startup env = .ok ⟨k, 20, 60⟩) := by
  refine ⟨?_, ?_, ?_⟩
  · rintro ⟨h1, h2⟩
    simp [startup, apiKeyOf, pyOrStr, h1, h2]
  · intro k hk hne
    simp [startup, apiKeyOf, pyOrStr, readRateVar, hk, hne, hm, hw]
  · intro k h1 h2 hne
    simp [startup, apiKeyOf, pyOrStr, readRateVar, h1, h2, hne, hm, hw]

/-- Claim C9, witness: an environment holding only `GOOGLE_API_KEY`. -/
theorem c9_startup_config_witness :
    startup (fun n => if n = "GOOGLE_API_KEY" then some "secret" else none) =
      .ok ⟨"secret", 20, 60⟩ := by
  have h := c9_startup_config
    (fun n => if n = "GOOGLE_API_KEY" then some "secret" else none)
    (by simp) (by simp)
  exact h.2.2 "secret" (by simp) (by simp) rfl
